import Mathlib

/-!
Verification of the MC6800 instruction-simulator core.

This file shallowly embeds the execution core of the simulator
(`src/lib/testmc/mc6800/opimpl.py`) and its bounds-checked memory
abstraction (`src/lib/mc6800sim/memory.py`) and proves the documented
properties of both.

Embedding conventions:
* Python machine integers become `Nat`; Python `x & 0xFF` / `x & 0xFFFF`
  on possibly negative intermediate values become `Int` arithmetic with
  an explicit `% 256` / `% 65536` followed by `Int.toNat` (Python's `&`
  with an all-ones mask is exactly the mathematical nonnegative
  remainder, for either sign of the left operand).
* The mutable `MC6800` machine instance becomes the record `M` below;
  each opcode implementation becomes a pure function `M → M` (or
  `M → α × M` for the helpers that also return a value), threading the
  state in the same statement order as the Python source.
* The machine's memory is total (`Nat → Nat`); the opcode
  implementations only ever access it at addresses already reduced
  modulo 65536 by `incword`, matching the Python code, so theorems about
  fetching carry the well-formedness hypothesis `pc < 65536` (and
  `sp < 65536` for stack operations) under which the embedding is
  faithful to the bounds-checked Python accessors.
* The standalone `MemoryAccess` mixin of `memory.py` is embedded
  separately below (`PySeq`, `MemoryAccess.byte`, …) with genuine Python
  sequence-indexing and slice semantics, because its claims are exactly
  about those semantics (negative indices, clamped slices, length
  checks).  Python exceptions become `Except` values.
-/

namespace MC6800

/-- CPU state of the `MC6800` machine object: accumulators `a` and `b`,
index register `x`, program counter `pc`, stack pointer `sp`, the six
condition flags and the backing memory. -/
structure M where
  a : Nat
  b : Nat
  x : Nat
  pc : Nat
  sp : Nat
  H : Bool
  I : Bool
  N : Bool
  Z : Bool
  V : Bool
  C : Bool
  mem : Nat → Nat

/-- Pointwise update of the memory function (one byte stored). -/
def update (f : Nat → Nat) (i v : Nat) : Nat → Nat :=
  fun j => if j = i then v else f j

/-- Source `incbyte(byte, addend)`: 8-bit result of `(byte + addend) & 0xFF`,
wrapping at `$FF`/`$00`; `addend` may be negative. -/
def incbyte (byte : Nat) (addend : Int) : Nat :=
  (((byte : Int) + addend) % 256).toNat

/-- Source `incword(word, addend)`: 16-bit result of `(word + addend) & 0xFFFF`,
wrapping at `$FFFF`/`$0000`; `addend` may be negative. -/
def incword (word : Nat) (addend : Int) : Nat :=
  (((word : Int) + addend) % 65536).toNat

/-- Source `readbyte(m)`: consume a byte at `[PC]` and return it. -/
def readbyte (m : M) : Nat × M :=
  (m.mem m.pc, { m with pc := incword m.pc 1 })

/-- Two's-complement reading of one byte, as done by
`unpack('b', ...)` in `readsignedbyte`. -/
def toSigned (b : Nat) : Int :=
  if b < 128 then (b : Int) else (b : Int) - 256

/-- Source `readsignedbyte(m)`: consume a byte at `[PC]` as a signed value. -/
def readsignedbyte (m : M) : Int × M :=
  (toSigned (m.mem m.pc), { m with pc := incword m.pc 1 })

/-- Source `readword(m)`: consume a word at `[PC]` (PC may wrap between the
two bytes). -/
def readword (m : M) : Nat × M :=
  let hm := readbyte m
  let lm := readbyte hm.2
  ((hm.1 <<< 8) ||| lm.1, lm.2)

/-- Source `readreloff(m)`: consume a signed relative offset byte at `[PC]`
and return the target address. -/
def readreloff (m : M) : Nat × M :=
  let om := readsignedbyte m
  (incword om.2.pc om.1, om.2)

/-- Source `readindex(m)`: consume an unsigned offset byte at `[PC]`, add it to
the X register contents and return the result. -/
def readindex (m : M) : Nat × M :=
  let vm := readbyte m
  (incword m.x vm.1, vm.2)

/-- Source `branchif(m, predicate)`: the shared conditional-branch body. -/
def branchif (m : M) (predicate : Bool) : M :=
  let tm := readreloff m
  if predicate then { tm.2 with pc := tm.1 } else tm.2

/-- Source `bra`: branch always. -/
def bra (m : M) : M := branchif m true

/-- Source `beq`: branch iff the Z flag is set. -/
def beq (m : M) : M := branchif m m.Z

/-- Source `popbyte(m)`: pop a byte off the stack and return it. -/
def popbyte (m : M) : Nat × M :=
  let m1 : M := { m with sp := incword m.sp 1 }
  (m1.mem m1.sp, m1)

/-- Source `popword(m)`: pop a word off the stack (first pop yields the MSB). -/
def popword (m : M) : Nat × M :=
  let msbm := popbyte m
  let lsbm := popbyte msbm.2
  ((msbm.1 <<< 8) + lsbm.1, lsbm.2)

/-- Source `pushbyte(m, byte)`: store the byte at the current SP
(`m.deposit(m.sp, byte)`), then decrement SP.  The deposit's
validity checks pass because every caller pushes a value below 256 at a
16-bit SP. -/
def pushbyte (m : M) (byte : Nat) : M :=
  { m with mem := update m.mem m.sp byte, sp := incword m.sp (-1) }

/-- Source `pushword(m, word)`: push a word on to the stack, LSB followed by
MSB. -/
def pushword (m : M) (word : Nat) : M :=
  pushbyte (pushbyte m (word &&& 0xFF)) (word >>> 8)

/-- Source `jsr`: read the extended target, push the return address, jump. -/
def jsr (m : M) : M :=
  let tm := readword m
  let m2 := pushword tm.2 tm.2.pc
  { m2 with pc := tm.1 }

/-- Source `jsrx`: like `jsr` with an indexed target. -/
def jsrx (m : M) : M :=
  let tm := readindex m
  let m2 := pushword tm.2 tm.2.pc
  { m2 with pc := tm.1 }

/-- Source `bsr`: like `jsr` with a relative target. -/
def bsr (m : M) : M :=
  let tm := readreloff m
  let m2 := pushword tm.2 tm.2.pc
  { m2 with pc := tm.1 }

/-- Source `rts`: pop the return address into PC. -/
def rts (m : M) : M :=
  let wm := popword m
  { wm.2 with pc := wm.1 }

/-- Source `tap`: load H, I, N, Z, V, C from bits 5..0 of accumulator A. -/
def tap (m : M) : M :=
  { m with
    H := (m.a &&& 32) != 0
    I := (m.a &&& 16) != 0
    N := (m.a &&& 8) != 0
    Z := (m.a &&& 4) != 0
    V := (m.a &&& 2) != 0
    C := (m.a &&& 1) != 0 }

/-- Python's implicit bool-to-int conversion used by `tpa`. -/
def bit (b : Bool) : Nat := if b then 1 else 0

/-- Source `tpa`: write the flags back into A in descending bit order with
bits 7 and 6 forced to 1. -/
def tpa (m : M) : M :=
  { m with a :=
      0b11000000
      ||| (bit m.H <<< 5)
      ||| (bit m.I <<< 4)
      ||| (bit m.N <<< 3)
      ||| (bit m.Z <<< 2)
      ||| (bit m.V <<< 1)
      ||| bit m.C }

/-- Source `isneg(b, signbit)`: test the sign bit. -/
def isneg (b : Nat) (signbit : Nat := 7) : Bool :=
  (b &&& (1 <<< signbit)) != 0

/-- Source `iszero(b)`. -/
def iszero (b : Nat) : Bool := b == 0

/-- Source `addHNZVC(m, augend, addend)`: modular 8-bit sum, setting H, N, Z,
V and C per PRG pages A-4 and A-5. -/
def addHNZVC (m : M) (augend addend : Nat) : Nat × M :=
  let sum := incbyte augend (addend : Int)
  let x7 := (augend &&& 0b10000000) != 0
  let m7 := (addend &&& 0b10000000) != 0
  let r7 := (sum &&& 0b10000000) != 0
  let x3 := (augend &&& 0b1000) != 0
  let m3 := (addend &&& 0b1000) != 0
  let r3 := (sum &&& 0b1000) != 0
  (sum, { m with
    N := isneg sum
    Z := iszero sum
    C := x7 && m7 || m7 && !r7 || !r7 && x7
    H := x3 && m3 || m3 && !r3 || !r3 && x3
    V := x7 && m7 && !r7 || !x7 && !m7 && r7 })

/-- Source `adda`: add the immediate operand into accumulator A. -/
def adda (m : M) : M :=
  let a0 := m.a
  let vm := readbyte m
  let sm := addHNZVC vm.2 a0 vm.1
  { sm.2 with a := sm.1 }

/-- Source `subNZVC(m, minuend, subtrahend, affectC)`: modular 8-bit
difference, setting N, Z, V (and C only when `affectC`) per PRG page
A-31. -/
def subNZVC (m : M) (minuend subtrahend : Nat) (affectC : Bool := true) :
    Nat × M :=
  let difference := incbyte minuend (-(subtrahend : Int))
  let x7 := (minuend &&& 0b10000000) != 0
  let m7 := (subtrahend &&& 0b10000000) != 0
  let r7 := (difference &&& 0b10000000) != 0
  (difference, { m with
    N := isneg difference
    Z := iszero difference
    C := if affectC then !x7 && m7 || m7 && r7 || r7 && !x7 else m.C
    V := x7 && !m7 && !r7 || !x7 && m7 && r7 })

/-- Source `cpxarg(m, argh, argl)`: the 16-bit compare core shared by all CPX
addressing modes — two C-suppressed byte compares, low bytes first, and
a combined Z. -/
def cpxarg (m : M) (argh argl : Nat) : M :=
  let xh := m.x >>> 8
  let xl := m.x &&& 0xFF
  let m1 := (subNZVC m xl argl false).2
  let Zl := m1.Z
  let m2 := (subNZVC m1 xh argh false).2
  { m2 with Z := Zl && m2.Z }

/-- Source `cpx`: CPX with an immediate 16-bit argument. -/
def cpx (m : M) : M :=
  let hm := readbyte m
  let lm := readbyte hm.2
  cpxarg lm.2 hm.1 lm.1

/-- The structured content of the `InvalidOpcode` exception: the
offending opcode byte and the reported program-counter field (a plain
Python integer, possibly negative). -/
structure InvalidOpcode where
  opcode : Nat
  pc : Int

/-- Source `invalid(m)`: raise `InvalidOpcode(m.mem[incword(m.pc, -1)], m.pc-1)`.
The machine state is not touched; only the exception value is built. -/
def invalid (m : M) : InvalidOpcode :=
  { opcode := m.mem (incword m.pc (-1)), pc := (m.pc : Int) - 1 }

/-! Specification predicates for the claims about the execution core.
Each predicate packages the observable behaviour of one operation (or
family) so that the claim theorem below is a single statement and its
witness can instantiate it at a concrete machine state. -/

/-- Specification of the 16-bit compare core `cpxarg`: the final Z is
the conjunction of the Z results of the two independent C-suppressed
byte compares (low and high bytes of X against the argument), N and V
are exactly those of the high-byte compare, C is untouched, no register
or memory cell changes, and the immediate-mode `cpx` merely fetches the
two argument bytes (high first) before delegating. -/
def CpxSpec (m : M) (argh argl : Nat) : Prop :=
  (cpxarg m argh argl).Z =
    ((subNZVC m (m.x &&& 0xFF) argl false).2.Z &&
     (subNZVC m (m.x >>> 8) argh false).2.Z) ∧
  (cpxarg m argh argl).N = (subNZVC m (m.x >>> 8) argh false).2.N ∧
  (cpxarg m argh argl).V = (subNZVC m (m.x >>> 8) argh false).2.V ∧
  (cpxarg m argh argl).C = m.C ∧
  (cpxarg m argh argl).a = m.a ∧
  (cpxarg m argh argl).b = m.b ∧
  (cpxarg m argh argl).x = m.x ∧
  (cpxarg m argh argl).pc = m.pc ∧
  (cpxarg m argh argl).sp = m.sp ∧
  (cpxarg m argh argl).mem = m.mem ∧
  cpx m = cpxarg { m with pc := incword m.pc 2 }
    (m.mem m.pc) (m.mem (incword m.pc 1))

/-- Specification of `addHNZVC`/`adda`: modular 8-bit sum with the
PRG bit-level flag truth tables, plus the two documented concrete rows
of the addition truth table. -/
def AddaSpec (m : M) (x v : Nat) : Prop :=
  (addHNZVC m x v).1 = (x + v) % 256 ∧
  (addHNZVC m x v).2.C =
    ((x &&& 128) != 0 && ((v &&& 128) != 0) ||
     (v &&& 128) != 0 && !(((x + v) % 256 &&& 128) != 0) ||
     !(((x + v) % 256 &&& 128) != 0) && ((x &&& 128) != 0)) ∧
  (addHNZVC m x v).2.H =
    ((x &&& 8) != 0 && ((v &&& 8) != 0) ||
     (v &&& 8) != 0 && !(((x + v) % 256 &&& 8) != 0) ||
     !(((x + v) % 256 &&& 8) != 0) && ((x &&& 8) != 0)) ∧
  (addHNZVC m x v).2.V =
    ((x &&& 128) != 0 && ((v &&& 128) != 0) && !(((x + v) % 256 &&& 128) != 0) ||
     !((x &&& 128) != 0) && !((v &&& 128) != 0) && (((x + v) % 256 &&& 128) != 0)) ∧
  (addHNZVC m x v).2.N = (((x + v) % 256 &&& 128) != 0) ∧
  (addHNZVC m x v).2.Z = ((x + v) % 256 == 0) ∧
  (adda m).a = (m.a + m.mem m.pc) % 256 ∧
  (adda m).pc = incword m.pc 1 ∧
  ((addHNZVC m 0x7F 0x01).1 = 0x80 ∧
   (addHNZVC m 0x7F 0x01).2.N = true ∧ (addHNZVC m 0x7F 0x01).2.Z = false ∧
   (addHNZVC m 0x7F 0x01).2.V = true ∧ (addHNZVC m 0x7F 0x01).2.C = false ∧
   (addHNZVC m 0x7F 0x01).2.H = true) ∧
  ((addHNZVC m 0xFF 0x01).1 = 0x00 ∧
   (addHNZVC m 0xFF 0x01).2.Z = true ∧ (addHNZVC m 0xFF 0x01).2.C = true ∧
   (addHNZVC m 0xFF 0x01).2.V = false)

/-- Specification of the subroutine calls: each pushes the return
address (the PC after all operand bytes) with the LOW byte stored at
the entry SP first, the HIGH byte at SP-1 second, leaves SP decremented
by two and PC at the call target. -/
def JsrSpec (m : M) : Prop :=
  ((jsr m).mem m.sp = incword m.pc 2 &&& 0xFF ∧
   (jsr m).mem (incword m.sp (-1)) = incword m.pc 2 >>> 8 ∧
   (jsr m).sp = incword m.sp (-2) ∧
   (jsr m).pc = (m.mem m.pc <<< 8) ||| m.mem (incword m.pc 1)) ∧
  ((bsr m).mem m.sp = incword m.pc 1 &&& 0xFF ∧
   (bsr m).mem (incword m.sp (-1)) = incword m.pc 1 >>> 8 ∧
   (bsr m).sp = incword m.sp (-2) ∧
   (bsr m).pc = incword (incword m.pc 1) (toSigned (m.mem m.pc))) ∧
  ((jsrx m).mem m.sp = incword m.pc 1 &&& 0xFF ∧
   (jsrx m).mem (incword m.sp (-1)) = incword m.pc 1 >>> 8 ∧
   (jsrx m).sp = incword m.sp (-2) ∧
   (jsrx m).pc = incword m.x (m.mem m.pc))

/-- Specification of the JSR/RTS round trip: with nothing executed in
between, RTS restores PC to the instruction after the JSR (the JSR
opcode sits at `pc - 1`, so that instruction is at `pc + 2`) and
restores SP. -/
def JsrRtsSpec (m : M) : Prop :=
  (rts (jsr m)).pc = incword m.pc 2 ∧ (rts (jsr m)).sp = m.sp

/-- Specification of the conditional branches: one signed offset byte
is consumed, the target is (address after the offset byte) + offset mod
65536, PC moves there exactly when the predicate holds, BRA is
always-taken, BEQ tests Z, and an offset byte of 0xFE (-2) targets the
branch opcode's own address (`pc - 1`, the opcode being one byte before
the entry PC). -/
def BranchSpec (m : M) : Prop :=
  (∀ p : Bool, branchif m p =
    { m with pc := if p then incword (incword m.pc 1) (toSigned (m.mem m.pc))
                   else incword m.pc 1 }) ∧
  bra m = { m with pc := incword (incword m.pc 1) (toSigned (m.mem m.pc)) } ∧
  beq m = { m with pc := if m.Z then incword (incword m.pc 1) (toSigned (m.mem m.pc))
                         else incword m.pc 1 } ∧
  (m.mem m.pc = 0xFE →
    incword (incword m.pc 1) (toSigned (m.mem m.pc)) = incword m.pc (-1))

/-- Specification of `invalid`: the exception carries the opcode byte
read back from the (16-bit wrapped) fetch address, and a pc field equal
to the advanced PC minus one as a plain integer, which coincides with
the fetch address whenever the advanced PC is at least 1. -/
def InvalidSpec (m : M) : Prop :=
  (invalid m).opcode = m.mem (incword m.pc (-1)) ∧
  (invalid m).pc = (m.pc : Int) - 1 ∧
  (1 ≤ m.pc → (invalid m).pc = ((incword m.pc (-1) : Nat) : Int))

/-- Specification of `readword`: big-endian decode of the bytes at PC
and (PC+1) mod 65536, PC advanced by 2 mod 65536, memory and registers
untouched; at PC = 0xFFFF the operand wraps between 0xFFFF and 0x0000
and PC ends at 0x0001. -/
def ReadwordSpec (m : M) : Prop :=
  (readword m).1 = m.mem m.pc * 256 + m.mem ((m.pc + 1) % 65536) ∧
  (readword m).2.pc = (m.pc + 2) % 65536 ∧
  (readword m).2.a = m.a ∧
  (readword m).2.mem = m.mem ∧
  (m.pc = 0xFFFF →
    (readword m).1 = m.mem 0xFFFF * 256 + m.mem 0 ∧ (readword m).2.pc = 1)

/-! Concrete machine states used by the witnesses and counterexamples. -/

/-- An all-zero machine state. -/
def st0 : M :=
  { a := 0, b := 0, x := 0, pc := 0, sp := 0,
    H := false, I := false, N := false, Z := false, V := false, C := false,
    mem := fun _ => 0 }

/-- State poised to execute the operands of a JSR at `$0FFF`:
PC past the opcode, SP at `$01FF`, target `$2000` stored at
`$1000-$1001`. -/
def stJ : M :=
  { st0 with
    pc := 0x1000
    sp := 0x01FF
    mem := fun i => if i = 0x1000 then 0x20 else 0 }

/-- State poised after a branch opcode with offset byte 0xFE (-2) and
the Z flag set. -/
def stB : M :=
  { st0 with
    pc := 0x2000
    Z := true
    mem := fun i => if i = 0x2000 then 0xFE else 0 }

/-- State as seen by `invalid` after fetching an unknown opcode 0xFF at
address 0: PC has advanced to 1. -/
def stI : M :=
  { st0 with pc := 1, mem := fun i => if i = 0 then 0xFF else 0 }

/-- State as seen by `invalid` after fetching an unknown opcode 0xFF at
address 0xFFFF: PC has wrapped to 0. -/
def stIw : M :=
  { st0 with pc := 0, mem := fun i => if i = 0xFFFF then 0xFF else 0 }

/-- State with PC at 0xFFFF and a word operand split across the
0xFFFF/0x0000 wrap. -/
def stW : M :=
  { st0 with
    pc := 0xFFFF
    mem := fun i => if i = 0xFFFF then 0x12 else if i = 0 then 0x34 else 0 }

end MC6800

namespace MemoryAccess

/-- The mutable sequence returned by `get_memory_seq()` (normally a
`bytearray` of 65536 cells), embedded as its length together with its
cell contents.  Reads and slice operations below implement genuine
Python sequence semantics (negative-index wrapping, clamped slice
bounds, slice-assignment splicing) so that the embedding is faithful
even at out-of-range arguments. -/
structure PySeq where
  size : Nat
  get : Nat → Nat

/-- Python index resolution for `seq[i]`: `0 ≤ i < len` is used as is,
`-len ≤ i < 0` wraps to `len + i`, anything else raises `IndexError`. -/
def pyIndex (len : Nat) (i : Int) : Option Nat :=
  if 0 ≤ i ∧ i < (len : Int) then some i.toNat
  else if -(len : Int) ≤ i ∧ i < 0 then some ((len : Int) + i).toNat
  else none

/-- Python slice-bound resolution: negative bounds count from the end,
then everything is clamped into `[0, len]`. -/
def pyBound (len : Nat) (i : Int) : Nat :=
  if i < 0 then (max 0 ((len : Int) + i)).toNat else min len i.toNat

/-- Python slice read `seq[a:b]` (step 1). -/
def pySliceRead (m : PySeq) (a b : Int) : List Nat :=
  let lo := pyBound m.size a
  let hi := max lo (pyBound m.size b)
  (List.range (hi - lo)).map (fun i => m.get (lo + i))

/-- Python slice assignment `seq[a:b] = v` (step 1): the resolved range
is replaced by `v`, splicing the tail after it. -/
def pySliceAssign (m : PySeq) (a b : Int) (v : List Nat) : PySeq :=
  let lo := pyBound m.size a
  let hi := max lo (pyBound m.size b)
  { size := m.size - (hi - lo) + v.length
    get := fun i =>
      if i < lo then m.get i
      else if i < lo + v.length then v.getD (i - lo) 0
      else m.get (i - (lo + v.length) + hi) }

/-- The `IndexError` raised by `byte`/`bytes` (and by `deposit`, the
spec's RangeKind). -/
inductive MemErr where
  | indexError
  deriving DecidableEq

/-- Source `byte(addr)`: `self.get_memory_seq()[addr]`, with Python indexing. -/
def byte (m : PySeq) (addr : Int) : Except MemErr Nat :=
  match pyIndex m.size addr with
  | some i => Except.ok (m.get i)
  | none => Except.error MemErr.indexError

/-- Source `bytes(addr, n)`: slice `[addr : addr+n]`, raising `IndexError` when
the slice comes back short. -/
def bytes (m : PySeq) (addr : Int) (n : Nat) : Except MemErr (List Nat) :=
  let bs := pySliceRead m addr (addr + (n : Int))
  if bs.length < n then Except.error MemErr.indexError else Except.ok bs

/-- The failures `deposit` can raise: `ValueError` naming the deposit
address and the offending value (the spec's ValueKind), or `IndexError`
naming the last touched address (the spec's RangeKind). -/
inductive DepErr where
  | valueKind (addr : Int) (bad : Int)
  | rangeKind (lastaddr : Int)
  deriving DecidableEq

/-- One positional argument of `deposit`: an integral scalar or a
sequence of integers.  (Non-integral scalars are outside this
embedding; integrality is inherent in `Int`.) -/
inductive DepArg where
  | scalar (v : Int)
  | seq (vs : List Int)

/-- Source `assertvalue(x)`: range-check one value against 0x00–0xFF,
failing with the ValueKind error naming the address and the value. -/
def assertvalue (addr : Int) (x : Int) : Except DepErr Unit :=
  if x < 0 ∨ 255 < x then Except.error (DepErr.valueKind addr x)
  else Except.ok ()

/-- Source `list(map(assertvalue, value))`: check every element of a sequence
argument, stopping at the first bad one. -/
def checkvalues (addr : Int) : List Int → Except DepErr Unit
  | [] => Except.ok ()
  | v :: vs =>
    match assertvalue addr v with
    | Except.error e => Except.error e
    | Except.ok _ => checkvalues addr vs

/-- The validation loop of `deposit`: flatten the arguments into
`vlist`, validating every value before anything is written. -/
def buildVlist (addr : Int) : List DepArg → Except DepErr (List Int)
  | [] => Except.ok []
  | DepArg.scalar v :: rest =>
    match assertvalue addr v with
    | Except.error e => Except.error e
    | Except.ok _ =>
      match buildVlist addr rest with
      | Except.error e => Except.error e
      | Except.ok r => Except.ok (v :: r)
  | DepArg.seq vs :: rest =>
    match checkvalues addr vs with
    | Except.error e => Except.error e
    | Except.ok _ =>
      match buildVlist addr rest with
      | Except.error e => Except.error e
      | Except.ok r => Except.ok (vs ++ r)

/-- Source `deposit(addr, *values)`: validate everything, check the last
touched address against 0xFFFF, then perform the single bulk slice
assignment and return the written bytes.  The returned pair is the
memory after the write together with the `bytes` return value. -/
def deposit (m : PySeq) (addr : Int) (values : List DepArg) :
    Except DepErr (PySeq × List Nat) :=
  match buildVlist addr values with
  | Except.error e => Except.error e
  | Except.ok vlist =>
    let lastaddr : Int := addr + vlist.length - 1
    if 0xFFFF < lastaddr then Except.error (DepErr.rangeKind lastaddr)
    else Except.ok
      (pySliceAssign m addr (lastaddr + 1) (vlist.map Int.toNat),
       vlist.map Int.toNat)

/-- The memory as it stands after a `deposit` call returns or raises:
the Python method mutates `self` only in its final slice-assignment
statement, so on any failure the memory is exactly the original. -/
def depositMem (m : PySeq) (addr : Int) (values : List DepArg) : PySeq :=
  match deposit m addr values with
  | Except.ok r => r.1
  | Except.error _ => m

/-- Specification of `deposit` on a full-size memory: with every value
in range the call returns the deposited bytes and a memory of unchanged
size from which `bytes(addr, n)` reads the data back; with any value
out of range the call fails with ValueKind naming the deposit address
and the first bad value, and the memory is untouched. -/
def DepositSpec (m : PySeq) (addr n : Nat) (data : List Int) : Prop :=
  ((∀ v ∈ data, 0 ≤ v ∧ v ≤ 255) →
    ∃ m2, deposit m (addr : Int) [DepArg.seq data] =
        Except.ok (m2, data.map Int.toNat) ∧
      m2.size = 65536 ∧
      bytes m2 (addr : Int) n = Except.ok (data.map Int.toNat)) ∧
  (∀ bad, data.find? (fun v => decide (v < 0 ∨ 255 < v)) = some bad →
    deposit m (addr : Int) [DepArg.seq data] =
      Except.error (DepErr.valueKind (addr : Int) bad) ∧
    depositMem m (addr : Int) [DepArg.seq data] = m)

/-- A 65536-cell memory holding 0xAB in its last cell and 0 elsewhere. -/
def testmem : PySeq :=
  { size := 65536, get := fun i => if i = 65535 then 0xAB else 0 }

/-- A 65536-cell memory of zeroes. -/
def zeromem : PySeq :=
  { size := 65536, get := fun _ => 0 }

end MemoryAccess

namespace MC6800

/-! Shared arithmetic lemmas about the wrapping helpers. -/

theorem incword_incword (w : Nat) (a b : Int) :
    incword (incword w a) b = incword w (a + b) := by
  unfold incword
  omega

theorem incword_lt (w : Nat) (a : Int) : incword w a < 65536 := by
  unfold incword
  omega

theorem incbyte_natCast (a v : Nat) : incbyte a (v : Int) = (a + v) % 256 := by
  unfold incbyte
  omega

theorem land255_eq_mod (x : Nat) : x &&& 255 = x % 256 := by
  rw [show (255 : Nat) = 2 ^ 8 - 1 from rfl, Nat.and_pow_two_sub_one_eq_mod]

theorem lor_shift8 (hi lo : Nat) (h : lo < 256) :
    (hi <<< 8) ||| lo = hi * 256 + lo := by
  rw [Nat.shiftLeft_eq, show (2 : Nat) ^ 8 = 256 from rfl,
    show hi * 256 = 256 * hi by ring,
    ← Nat.mul_add_lt_is_or (by omega : lo < 2 ^ 8) hi]

/-- C9: executing TPA (which writes the flags into bits 5..0 of A with
bits 7 and 6 forced to 1) followed by TAP restores exactly the original
combination of the six flags, for every combination; the forced upper
two bits of the intermediate byte do not affect the read-back. -/
theorem tpa_tap_roundtrip (m : M) :
    (tap (tpa m)).H = m.H ∧ (tap (tpa m)).I = m.I ∧
    (tap (tpa m)).N = m.N ∧ (tap (tpa m)).Z = m.Z ∧
    (tap (tpa m)).V = m.V ∧ (tap (tpa m)).C = m.C ∧
    (tpa m).a &&& 0xC0 = 0xC0 := by
  obtain ⟨a, b, x, pc, sp, fH, fI, fN, fZ, fV, fC, mem⟩ := m
  cases fH <;> cases fI <;> cases fN <;> cases fZ <;> cases fV <;> cases fC <;>
    simp [tap, tpa, bit] <;> decide

/-- C5: a conditional branch consumes exactly one signed relative
offset byte, targets (address after the offset byte) + offset mod
65536, moves PC there exactly when its predicate holds and otherwise
leaves PC just after the offset byte; BRA is always taken, BEQ is taken
iff Z is set at call time, and offset -2 (byte 0xFE) targets the branch
opcode's own address. -/
theorem branch_relative_ok (m : M) (hpc : m.pc < 65536) : BranchSpec m := by
  have hp : ∀ p : Bool, branchif m p =
      { m with pc := if p then incword (incword m.pc 1) (toSigned (m.mem m.pc))
                     else incword m.pc 1 } := by
    intro p
    cases p <;> rfl
  refine ⟨hp, by simpa using hp true, by simpa using hp m.Z, fun hFE => ?_⟩
  rw [hFE, show toSigned 0xFE = -2 from rfl, incword_incword]
  norm_num

/-- C5 witness: at PC `$2001` (offset byte 0xFE, Z set) the branch spec
holds concretely. -/
theorem branch_relative_ok_witness : stB.pc < 65536 ∧ BranchSpec stB :=
  ⟨by decide, branch_relative_ok stB (by decide)⟩

/-- C8 (amended): `invalid` builds the failure from the opcode byte
re-read at the 16-bit-wrapped fetch address, but reports the pc field
as the un-wrapped integer `pc - 1`; the two agree exactly when the
advanced PC is at least 1, i.e. for every fetch address except 0xFFFF. -/
theorem invalid_reports_fetch_addr (m : M) (hpc : m.pc < 65536) :
    InvalidSpec m := by
  refine ⟨rfl, rfl, fun h1 => ?_⟩
  show (m.pc : Int) - 1 = ((incword m.pc (-1) : Nat) : Int)
  unfold incword
  omega

/-- C8 witness: an unknown opcode fetched at address 0 (PC advanced
to 1) is reported with the right opcode value and pc field. -/
theorem invalid_reports_fetch_addr_witness : stI.pc < 65536 ∧ InvalidSpec stI :=
  ⟨by decide, invalid_reports_fetch_addr stI (by decide)⟩

/-- C8 counterexample: after fetching the unknown opcode byte stored at
0xFFFF the PC has wrapped to 0; `invalid` recovers the opcode 0xFF from
the wrapped fetch address 0xFFFF, yet reports pc = -1, not 0xFFFF. -/
theorem invalid_pc_wrap_cex :
    (invalid stIw).opcode = 0xFF ∧ incword stIw.pc (-1) = 0xFFFF ∧
    (invalid stIw).pc = -1 ∧ (invalid stIw).pc ≠ (0xFFFF : Int) := by
  decide

/-- C10: a word operand fetched at PC is the big-endian combination of
the bytes at PC and (PC+1) mod 65536 with PC advanced by 2 mod 65536;
in particular at PC = 0xFFFF it reads mem[0xFFFF]*256 + mem[0x0000]
and leaves PC = 0x0001. -/
theorem readword_wraps (m : M) (hpc : m.pc < 65536)
    (hlo : m.mem ((m.pc + 1) % 65536) < 256) : ReadwordSpec m := by
  have h1 : incword m.pc 1 = (m.pc + 1) % 65536 := by
    unfold incword
    omega
  have hg1 : (readword m).1 = m.mem m.pc * 256 + m.mem ((m.pc + 1) % 65536) := by
    show (m.mem m.pc <<< 8) ||| m.mem (incword m.pc 1) = _
    rw [h1, lor_shift8 _ _ hlo]
  have hg2 : (readword m).2.pc = (m.pc + 2) % 65536 := by
    show incword (incword m.pc 1) 1 = _
    unfold incword
    omega
  refine ⟨hg1, hg2, rfl, rfl, fun hFF => ⟨?_, ?_⟩⟩
  · rw [hg1, hFF]
  · rw [hg2, hFF]

/-- C10 witness: with 0x12 at 0xFFFF and 0x34 at 0x0000, the word read
at PC = 0xFFFF wraps as specified. -/
theorem readword_wraps_witness :
    stW.pc < 65536 ∧ stW.mem ((stW.pc + 1) % 65536) < 256 ∧ ReadwordSpec stW :=
  ⟨by decide, by decide, readword_wraps stW (by decide) (by decide)⟩

/-- C1: the 16-bit compare performs two independent C-suppressed 8-bit
compares (low bytes of X and the argument first, then high bytes), sets
the final Z to the conjunction of the two per-byte Z results, leaves C
untouched, takes N and V exactly from the high-byte compare — without
combining or carry-chaining the per-byte C and V results — and changes
no register or memory; the immediate variant `cpx` fetches the two
argument bytes and delegates to the same core. -/
theorem cpx_nonchained_ok (m : M) (argh argl : Nat) (hpc : m.pc < 65536) :
    CpxSpec m argh argl := by
  have h2 : incword (incword m.pc 1) 1 = incword m.pc 2 := by
    rw [incword_incword]
    norm_num
  refine ⟨rfl, rfl, rfl, rfl, rfl, rfl, rfl, rfl, rfl, rfl, ?_⟩
  show cpxarg { m with pc := incword (incword m.pc 1) 1 }
      (m.mem m.pc) (m.mem (incword m.pc 1)) = _
  rw [h2]

/-- C1 witness: the compare spec instantiated at a concrete state and
argument. -/
theorem cpx_nonchained_ok_witness : st0.pc < 65536 ∧ CpxSpec st0 0x12 0x34 :=
  ⟨by decide, cpx_nonchained_ok st0 0x12 0x34 (by decide)⟩

/-- C2: ADDA computes the modular 8-bit sum and sets C, H, V by the PRG
bit-level truth tables (with N the sign of the sum and Z its zero test);
in particular 0x7F + 0x01 gives 0x80 with N=1, Z=0, V=1, C=0, H=1 and
0xFF + 0x01 gives 0x00 with Z=1, C=1, V=0. -/
theorem adda_flags_ok (m : M) (x v : Nat) (hpc : m.pc < 65536) :
    AddaSpec m x v := by
  have hs : incbyte x (v : Int) = (x + v) % 256 := incbyte_natCast x v
  refine ⟨?_, ?_, ?_, ?_, ?_, ?_, ?_, ?_, ?_, ?_⟩
  · show incbyte x (v : Int) = _
    exact hs
  · simp [addHNZVC, hs]
  · simp [addHNZVC, hs]
  · simp [addHNZVC, hs]
  · simp [addHNZVC, hs, isneg]
  · simp [addHNZVC, hs, iszero]
  · simp [adda, readbyte, addHNZVC, incbyte_natCast]
  · simp [adda, readbyte, addHNZVC]
  · exact ⟨rfl, rfl, rfl, rfl, rfl, rfl⟩
  · exact ⟨rfl, rfl, rfl, rfl⟩

/-- C2 witness: the addition spec instantiated at the documented
truth-table row 0x7F + 0x01. -/
theorem adda_flags_ok_witness : st0.pc < 65536 ∧ AddaSpec st0 0x7F 0x01 :=
  ⟨by decide, adda_flags_ok st0 0x7F 0x01 (by decide)⟩

/-- C3 (amended): JSR, BSR and JSRx push the return address (the PC
after all operand bytes) as two bytes with the LOW byte pushed first
(stored at the entry SP) and the HIGH byte pushed second (stored at
SP-1), each push storing at the current SP and then decrementing it,
after which PC is the call target. -/
theorem jsr_pushes_lsb_first (m : M) (hpc : m.pc < 65536)
    (hsp : m.sp < 65536) : JsrSpec m := by
  have hne : m.sp ≠ incword m.sp (-1) := by
    unfold incword
    omega
  have hsp2 : incword (incword m.sp (-1)) (-1) = incword m.sp (-2) := by
    rw [incword_incword]
    norm_num
  have hpc2 : incword (incword m.pc 1) 1 = incword m.pc 2 := by
    rw [incword_incword]
    norm_num
  refine ⟨⟨?_, ?_, ?_, ?_⟩, ⟨?_, ?_, ?_, ?_⟩, ⟨?_, ?_, ?_, ?_⟩⟩ <;>
    simp [jsr, bsr, jsrx, readword, readbyte, readreloff, readsignedbyte,
      readindex, pushword, pushbyte, update, hsp2, hpc2, hne]

/-- C3 witness: the push-order spec at a concrete JSR whose return
address is 0x1002. -/
theorem jsr_pushes_lsb_first_witness :
    stJ.pc < 65536 ∧ stJ.sp < 65536 ∧ JsrSpec stJ :=
  ⟨by decide, by decide, jsr_pushes_lsb_first stJ (by decide) (by decide)⟩

/-- C3 counterexample: for the JSR at `$0FFF` (entry PC `$1000`,
SP `$01FF`) the return address is 0x1002; the byte stored at the entry
SP — the byte pushed FIRST — is its low byte 0x02, not its high byte
0x10, refuting the claimed high-byte-first push order; the high byte
lands one cell below. -/
theorem jsr_push_order_cex :
    (jsr stJ).mem 0x01FF = 0x02 ∧ (jsr stJ).mem 0x01FE = 0x10 ∧
    (jsr stJ).mem 0x01FF ≠ 0x10 := by
  decide

/-- C4: a JSR followed immediately by RTS (stack memory and SP
untouched in between) returns PC to the instruction after the JSR
(entry PC + 2, the JSR opcode being one byte before the entry PC) and
restores SP to its pre-call value. -/
theorem jsr_rts_roundtrip (m : M) (hpc : m.pc < 65536)
    (hsp : m.sp < 65536) : JsrRtsSpec m := by
  have hne : m.sp ≠ incword m.sp (-1) := by
    unfold incword
    omega
  have hsp2 : incword (incword m.sp (-1)) (-1) = incword m.sp (-2) := by
    rw [incword_incword]
    norm_num
  have hpc2 : incword (incword m.pc 1) 1 = incword m.pc 2 := by
    rw [incword_incword]
    norm_num
  have ha : incword (incword m.sp (-2)) 1 = incword m.sp (-1) := by
    rw [incword_incword]
    norm_num
  have hb : incword (incword m.sp (-1)) 1 = m.sp := by
    unfold incword
    omega
  have hsplit : (incword m.pc 2 >>> 8) <<< 8 + (incword m.pc 2 &&& 0xFF) =
      incword m.pc 2 := by
    rw [Nat.shiftRight_eq_div_pow, Nat.shiftLeft_eq, land255_eq_mod]
    have : (2 : Nat) ^ 8 = 256 := rfl
    rw [this]
    omega
  constructor
  · simp [rts, popword, popbyte, jsr, readword, readbyte, pushword, pushbyte,
      update, hsp2, hpc2, ha, hb, hne, hsplit]
  · simp [rts, popword, popbyte, jsr, readword, readbyte, pushword, pushbyte,
      update, hsp2, ha, hb]

/-- C4 witness: the JSR/RTS round trip at the concrete JSR state. -/
theorem jsr_rts_roundtrip_witness :
    stJ.pc < 65536 ∧ stJ.sp < 65536 ∧ JsrRtsSpec stJ :=
  ⟨by decide, by decide, jsr_rts_roundtrip stJ (by decide) (by decide)⟩

end MC6800

namespace MemoryAccess

/-! Supporting lemmas for the deposit validation loop and the Python
slice primitives. -/

theorem checkvalues_ok (addr : Int) (l : List Int)
    (h : ∀ v ∈ l, 0 ≤ v ∧ v ≤ 255) : checkvalues addr l = Except.ok () := by
  induction l with
  | nil => rfl
  | cons v vs ih =>
    have hv := h v (List.mem_cons_self v vs)
    have hav : assertvalue addr v = Except.ok () := by
      unfold assertvalue
      rw [if_neg (by omega)]
    simp only [checkvalues, hav]
    exact ih fun w hw => h w (List.mem_cons_of_mem _ hw)

theorem checkvalues_err (addr : Int) (l : List Int) (bad : Int)
    (h : l.find? (fun v => decide (v < 0 ∨ 255 < v)) = some bad) :
    checkvalues addr l = Except.error (DepErr.valueKind addr bad) := by
  induction l with
  | nil => simp [List.find?] at h
  | cons v vs ih =>
    by_cases hv : v < 0 ∨ 255 < v
    · rw [List.find?_cons_of_pos _ (by simpa using hv)] at h
      obtain rfl : v = bad := by simpa using h
      have hav : assertvalue addr v = Except.error (DepErr.valueKind addr v) := by
        unfold assertvalue
        rw [if_pos hv]
      simp only [checkvalues, hav]
    · rw [List.find?_cons_of_neg _ (by simpa using hv)] at h
      have hav : assertvalue addr v = Except.ok () := by
        unfold assertvalue
        rw [if_neg hv]
      simp only [checkvalues, hav]
      exact ih h

theorem buildVlist_seq_ok (addr : Int) (data : List Int)
    (h : ∀ v ∈ data, 0 ≤ v ∧ v ≤ 255) :
    buildVlist addr [DepArg.seq data] = Except.ok data := by
  simp [buildVlist, checkvalues_ok addr data h]

theorem buildVlist_seq_err (addr : Int) (data : List Int) (bad : Int)
    (h : data.find? (fun v => decide (v < 0 ∨ 255 < v)) = some bad) :
    buildVlist addr [DepArg.seq data] = Except.error (DepErr.valueKind addr bad) := by
  simp [buildVlist, checkvalues_err addr data bad h]

theorem pyBound_of_nonneg (len : Nat) (i : Int) (h0 : 0 ≤ i)
    (h1 : i ≤ (len : Int)) : pyBound len i = i.toNat := by
  unfold pyBound
  split <;> omega

theorem range_map_getD (l : List Nat) :
    (List.range l.length).map (fun i => l.getD i 0) = l := by
  apply List.ext_getElem
  · simp
  · intro i h1 h2
    simp [List.getD_eq_getElem?_getD, List.getElem?_eq_getElem h2]

/-- C6: `deposit` validates every value against 0x00–0xFF before any
write.  If every value is in range (and the data fits below 0x10000)
the single bulk write happens, the written bytes are returned, and
`bytes(addr, n)` reads the deposited data back; if any value is out of
range the call fails with ValueKind naming the deposit address and the
first bad value and the memory is left entirely unchanged. -/
theorem deposit_all_or_nothing (m : PySeq) (addr n : Nat) (data : List Int)
    (hm : m.size = 65536) (hlen : data.length = n) (hr : addr + n ≤ 65536) :
    DepositSpec m addr n data := by
  constructor
  · intro hvalid
    have hbv := buildVlist_seq_ok (addr : Int) data hvalid
    have hlast : ¬((0xFFFF : Int) < (addr : Int) + (data.length : Int) - 1) := by
      omega
    have hA : (addr : Int) + (data.length : Int) - 1 + 1 =
        (addr : Int) + (n : Int) := by
      omega
    have hdep : deposit m (addr : Int) [DepArg.seq data] =
        Except.ok
          (pySliceAssign m (addr : Int) ((addr : Int) + (n : Int))
            (data.map Int.toNat),
           data.map Int.toNat) := by
      simp only [deposit, hbv]
      rw [if_neg hlast, hA]
    have hvlen : (data.map Int.toNat).length = n := by
      simp [hlen]
    have hlo : pyBound m.size (addr : Int) = addr := by
      rw [hm, pyBound_of_nonneg _ _ (by omega) (by omega)]
      omega
    have hhi : pyBound m.size ((addr : Int) + (n : Int)) = addr + n := by
      rw [hm, pyBound_of_nonneg _ _ (by omega) (by omega)]
      omega
    have hmax : max addr (addr + n) = addr + n := by
      omega
    have hsize : (pySliceAssign m (addr : Int) ((addr : Int) + (n : Int))
        (data.map Int.toNat)).size = 65536 := by
      simp only [pySliceAssign, hlo, hhi, hmax, List.length_map]
      omega
    have hget : ∀ i, i < n →
        (pySliceAssign m (addr : Int) ((addr : Int) + (n : Int))
          (data.map Int.toNat)).get (addr + i) =
        (data.map Int.toNat).getD i 0 := by
      intro i hi
      simp only [pySliceAssign, hlo, hhi, hmax]
      rw [if_neg (by omega), if_pos (by omega : addr + i < addr + (data.map Int.toNat).length)]
      congr 1
      omega
    have hbs : pySliceRead
        (pySliceAssign m (addr : Int) ((addr : Int) + (n : Int))
          (data.map Int.toNat))
        (addr : Int) ((addr : Int) + (n : Int)) = data.map Int.toNat := by
      unfold pySliceRead
      have hlo2 : pyBound (pySliceAssign m (addr : Int)
          ((addr : Int) + (n : Int)) (data.map Int.toNat)).size (addr : Int)
          = addr := by
        rw [hsize, pyBound_of_nonneg _ _ (by omega) (by omega)]
        omega
      have hhi2 : pyBound (pySliceAssign m (addr : Int)
          ((addr : Int) + (n : Int)) (data.map Int.toNat)).size
          ((addr : Int) + (n : Int)) = addr + n := by
        rw [hsize, pyBound_of_nonneg _ _ (by omega) (by omega)]
        omega
      simp only [hlo2, hhi2, hmax]
      rw [show addr + n - addr = n by omega]
      rw [List.map_congr_left
        (fun i hi => hget i (List.mem_range.mp hi))]
      rw [show n = (data.map Int.toNat).length from hvlen.symm]
      exact range_map_getD (data.map Int.toNat)
    refine ⟨pySliceAssign m (addr : Int) ((addr : Int) + (n : Int))
      (data.map Int.toNat), hdep, hsize, ?_⟩
    show (let bs := pySliceRead _ (addr : Int) ((addr : Int) + (n : Int));
      if bs.length < n then Except.error MemErr.indexError
      else Except.ok bs) = _
    rw [hbs]
    simp [hvlen]
  · intro bad hfind
    have hbv := buildVlist_seq_err (addr : Int) data bad hfind
    constructor
    · simp [deposit, hbv]
    · simp [depositMem, deposit, hbv]

/-- C6 witness: depositing [1, 2, 3] at 0x0200 into the all-zero
memory satisfies the deposit spec. -/
theorem deposit_all_or_nothing_witness :
    zeromem.size = 65536 ∧ DepositSpec zeromem 0x200 3 [1, 2, 3] :=
  ⟨rfl, deposit_all_or_nothing zeromem 0x200 3 [1, 2, 3] rfl rfl (by omega)⟩

/-- C7 (code bug): the claim — and the spec — require every read or
deposit outside 0x0000–0xFFFF to be rejected and never wrapped, but
the embedded Python sequence semantics silently wrap negative
addresses: `byte(-1)` returns the byte stored at cell 0xFFFF, and a
deposit at address -2 writes cell 0xFFFE.  (Only addresses past 0xFFFF
are rejected, as the third conjunct shows.) -/
theorem byte_negative_addr_wraps :
    byte testmem 0xFFFF = Except.ok 0xAB ∧
    byte testmem (-1) = Except.ok 0xAB ∧
    byte testmem 0x10000 = Except.error MemErr.indexError ∧
    (depositMem testmem (-2) [DepArg.scalar 0x99]).get 0xFFFE = 0x99 ∧
    testmem.get 0xFFFE = 0 := by
  refine ⟨rfl, rfl, rfl, ?_, rfl⟩
  rfl

end MemoryAccess
